import Mathlib

/-
Verification of the openinspire ingestion pipeline (src/openinspire/core.py)
against its natural-language specification.

The pipeline is shallowly embedded: file contents are lists of bytes,
directories are association lists from filename to contents, the external
world (HTTP, zipfile, geopandas) is passed in as explicit oracles, and each
method of the `openinspire` class becomes a pure function on an explicit
state record.
-/

namespace openinspire

/-! ## String helpers modelling the Python stdlib functions used by core.py -/

/-- Build a string from its character list. -/
def strOf (l : List Char) : String := ⟨l⟩

/-- Model of Python `str.endswith`. -/
def pyEndsWith (s suffix : String) : Bool := suffix.data.isSuffixOf s.data

/-- Substring test on character lists: does the needle occur inside the
haystack?  Models Python `needle in haystack`. -/
def hasSubList (needle : List Char) : List Char → Bool
  | [] => needle.isEmpty
  | c :: rest => needle.isPrefixOf (c :: rest) || hasSubList needle rest

/-- Model of Python `needle in hay` on strings. -/
def strContains (hay needle : String) : Bool := hasSubList needle.data hay.data

/-- Everything after the last slash (the whole list when there is none). -/
def afterLastSlash (l : List Char) : List Char :=
  (l.reverse.takeWhile (fun c => c != '/')).reverse

/-- Model of `os.path.basename` (POSIX separator). -/
def basenameStr (s : String) : String := strOf (afterLastSlash s.data)

/-- Drop everything up to and including the first occurrence of "://";
`none` when the separator does not occur. -/
def afterSchemeSep : List Char → Option (List Char)
  | [] => none
  | ':' :: '/' :: '/' :: rest => some rest
  | _ :: rest => afterSchemeSep rest

/-- Model of `urllib.parse.urlparse(u).path`: strip the fragment, then the
scheme and network location when present, then the query. -/
def urlPath (u : String) : String :=
  let noFrag := u.data.takeWhile (fun c => c != '#')
  match afterSchemeSep noFrag with
  | some rest =>
      strOf ((rest.dropWhile (fun c => c != '/' && c != '?')).takeWhile (fun c => c != '?'))
  | none => strOf (noFrag.takeWhile (fun c => c != '?'))

/-- Filename a download is cached under:
`os.path.basename(urlparse(url).path)` in core.py. -/
def urlFilename (u : String) : String := basenameStr (urlPath u)

/-- Index of the last dot of a character list, if any. -/
def lastDot : List Char → Option Nat
  | [] => none
  | c :: rest =>
      match lastDot rest with
      | some i => some (i + 1)
      | none => if c == '.' then some 0 else none

/-- Stem part of `os.path.splitext` on a bare filename (no directory
separators): split at the last dot unless every character before that dot is
itself a dot, in which case the whole name is the stem. -/
def splitextStem (f : String) : String :=
  match lastDot f.data with
  | none => f
  | some d => if (f.data.take d).all (fun c => c == '.') then f else strOf (f.data.take d)

/-- Output filename the Extractor gives a member of an archive
(core.py line 130): splitext stem of the archive filename, an underscore,
then the member's basename. -/
def uniqueGmlName (zipFileName member : String) : String :=
  splitextStem zipFileName ++ "_" ++ basenameStr member

/-- Directory part of a URL path, up to and including the last slash; an
empty path resolves like the root path. -/
def dirOfPath (p : List Char) : List Char :=
  if p.isEmpty then [ '/' ] else (p.reverse.dropWhile (fun c => c != '/')).reverse

/-- Split an absolute URL into its "scheme://" prefix and the remainder. -/
def schemeSplit (u : String) : Option (List Char × List Char) :=
  match afterSchemeSep u.data with
  | some rest => some (u.data.take (u.data.length - rest.length), rest)
  | none => none

/-- Does the string start with a slash? -/
def startsSlash (s : String) : Bool :=
  match s.data with
  | '/' :: _ => true
  | _ => false

/-- Model of `urllib.parse.urljoin` for the shapes met by the pipeline: an
absolute href is returned unchanged, a root-relative href replaces the base's
path, any other href replaces the base path's last segment.  Dot-segment
normalisation is not modelled. -/
def urljoin (base href : String) : String :=
  if hasSubList [ ':', '/', '/' ] href.data then href
  else
    match schemeSplit base with
    | none => href
    | some (pre, rest) =>
        let netloc := rest.takeWhile (fun c => c != '/')
        let path := rest.dropWhile (fun c => c != '/')
        if startsSlash href then strOf (pre ++ netloc) ++ href
        else strOf (pre ++ netloc ++ dirOfPath path) ++ href

/-- Model of Python `str.lower` (ASCII). -/
def pyLower (s : String) : String := strOf (s.data.map Char.toLower)

/-- Model of Python `str.strip` / BeautifulSoup `get_text(strip=True)` on a
single text node: trim whitespace at both ends. -/
def pyStrip (s : String) : String :=
  strOf (((s.data.dropWhile Char.isWhitespace).reverse.dropWhile Char.isWhitespace).reverse)

/-- Normalised anchor text as computed at core.py line 52:
`a.get_text(strip=True).lower()`. -/
def anchorText (t : String) : String := pyLower (pyStrip t)

/-! ## Link discovery (`_get_links`, core.py lines 42-59) -/

/-- One parsed hyperlink of the index page: the href attribute and the link
text.  This is the shallow embedding of `soup.find_all('a', href=True)`. -/
structure Anchor where
  href : String
  text : String
deriving DecidableEq

/-- Result of fetching the index page: an HTTP response (any status code)
whose body parses to a list of anchors, or a raised network error. -/
inductive PageResult where
  | ok (status : Nat) (anchors : List Anchor)
  | fetchError
deriving DecidableEq

/-- Filter applied to each anchor at core.py line 53: the href ends with
".zip" and the normalised link text contains ".gml" or "land". -/
def keepLink (a : Anchor) : Bool :=
  pyEndsWith a.href ".zip" &&
    (strContains (anchorText a.text) ".gml" || strContains (anchorText a.text) "land")

/-- Insert a string into a sorted duplicate-free list, keeping it sorted and
duplicate-free. -/
def insertSorted (x : String) : List String → List String
  | [] => [x]
  | y :: ys =>
      if x = y then y :: ys
      else if x < y then x :: y :: ys
      else y :: insertSorted x ys

/-- Model of Python `sorted(list(set(l)))`: the sorted, duplicate-free list
with the same members as `l`. -/
def sortDedup (l : List String) : List String := l.foldr insertSorted []

/-- Model of `_get_links` (core.py lines 42-59): on a network error return
the empty list; otherwise keep the anchors passing `keepLink`, resolve their
hrefs against the base URL, deduplicate and sort.  The HTTP status code of
the response is never consulted. -/
def _get_links (base : String) (page : PageResult) : List String :=
  match page with
  | .fetchError => []
  | .ok _ anchors => sortDedup ((anchors.filter keepLink).map (fun a => urljoin base a.href))

/-! ## Feature collections (the geopandas layer, abstracted) -/

/-- One geometry written to the output dataset: an abstract payload plus the
reference system its coordinates are expressed in (identified by its
authority code). -/
structure Feature where
  payload : Nat
  crs : String
deriving DecidableEq

/-- A parsed feature collection (a GeoDataFrame): a collection-level
reference system and the list of feature payloads. -/
structure Gdf where
  crs : String
  feats : List Nat
deriving DecidableEq

/-- Model of `GeoDataFrame.to_crs`: re-express every geometry in the target
reference system.  Feature payloads are abstract, so only the reference
system tag changes; the feature count is preserved, as in geopandas. -/
def Gdf.to_crs (g : Gdf) (target : String) : Gdf := ⟨target, g.feats⟩

/-- Features of a collection, each tagged with the collection's reference
system. -/
def gdfFeatures (g : Gdf) : List Feature := g.feats.map (fun p => ⟨p, g.crs⟩)

/-- Fixed target reference system (core.py line 27). -/
def target_crs : String := "EPSG:27700"

/-! ## Pipeline state and the Archive Fetcher
(`_download_file` / `run_downloads`, core.py lines 61-116) -/

/-- Result of one archive GET (`requests.get` plus `raise_for_status`):
either the full byte stream, or a raised exception (network error, non-2xx
status, or a failure while streaming to disk). -/
inductive NetResult where
  | ok (bytes : List Nat)
  | fetchError
deriving DecidableEq

/-- On-disk state of one pipeline instance: the persistent cache directory,
the scratch extraction directory (`none` when the directory does not exist),
the output dataset (`none` when no file exists at the output path), and the
log of URLs actually requested over the network. -/
structure RunState where
  cache : List (String × List Nat)
  extractDir : Option (List (String × List Nat))
  output : Option (List Feature)
  netCalls : List String

/-- Per-link outcome reported by the Fetcher. -/
inductive DlOutcome where
  | skipped
  | downloaded
  | failed
deriving DecidableEq

/-- Write a file into a directory, overwriting any file of the same name. -/
def insertFile (name : String) (bytes : List Nat) :
    List (String × List Nat) → List (String × List Nat)
  | [] => [ (name, bytes) ]
  | e :: rest => if e.1 = name then (name, bytes) :: rest else e :: insertFile name bytes rest

/-- Model of `if os.path.exists(p): os.remove(p)`. -/
def removeFile (name : String) (dir : List (String × List Nat)) :
    List (String × List Nat) :=
  dir.filter (fun e => e.1 != name)

/-- Download branch of `_download_file` (core.py lines 104-116): record the
network request; on success write the streamed bytes to the cache, on any
error remove whatever file exists under the target name and surface the
failure. -/
def attemptDownload (net : String → NetResult) (s : RunState) (url filename : String) :
    DlOutcome × RunState :=
  let s1 : RunState := { s with netCalls := s.netCalls ++ [url] }
  match net url with
  | NetResult.ok bytes => (DlOutcome.downloaded, { s1 with cache := insertFile filename bytes s1.cache })
  | NetResult.fetchError => (DlOutcome.failed, { s1 with cache := removeFile filename s1.cache })

/-- Model of `_download_file` (core.py lines 93-116): skip when a file of the
target name exists in the cache with non-zero size, otherwise attempt the
download. -/
def _download_file (net : String → NetResult) (s : RunState) (url : String) :
    DlOutcome × RunState :=
  let filename := urlFilename url
  match List.lookup filename s.cache with
  | some bytes =>
      if bytes.length > 0 then (DlOutcome.skipped, s)
      else attemptDownload net s url filename
  | none => attemptDownload net s url filename

/-- Model of `run_downloads` (core.py lines 61-91): every link is processed
and its outcome reported exactly once; a failure raised by one link is caught
at the reporting loop and never aborts the others.  The thread pool is
modelled by sequential processing. -/
def run_downloads (net : String → NetResult) (s : RunState) :
    List String → List (String × DlOutcome) × RunState
  | [] => ([], s)
  | url :: rest =>
      let r := _download_file net s url
      let rr := run_downloads net r.2 rest
      ((url, r.1) :: rr.1, rr.2)

/-! ## Archive Extractor (`_unzip_all`, core.py lines 118-135) -/

/-- Extract one archive (the inner loop of `_unzip_all`): every member whose
name ends with ".gml" is written into the scratch directory under
`uniqueGmlName`, later members overwriting earlier ones of the same target
name. -/
def extractArchive (zipFileName : String) (members : List (String × List Nat))
    (dir : List (String × List Nat)) : List (String × List Nat) :=
  members.foldl
    (fun d m => if pyEndsWith m.1 ".gml" then insertFile (uniqueGmlName zipFileName m.1) m.2 d else d)
    dir

/-- Model of `_unzip_all` (core.py lines 118-135): every cache file whose
name ends with ".zip" is opened through the `zipRead` oracle (the zipfile
library: `none` models a raised error on a malformed archive, which skips
the whole archive); its ".gml" members are extracted into the scratch
directory. -/
def _unzip_all (zipRead : List Nat → Option (List (String × List Nat))) (s : RunState) :
    RunState :=
  let zips := s.cache.filter (fun e => pyEndsWith e.1 ".zip")
  let dir := zips.foldl
    (fun d e =>
      match zipRead e.2 with
      | some members => extractArchive e.1 members d
      | none => d)
    (s.extractDir.getD [])
  { s with extractDir := some dir }

/-! ## Spatial Consolidator (`_amalgamate_gmls`, core.py lines 137-160) -/

/-- One extracted data file as the Consolidator sees it: its name, the
result of `gpd.read_file` (`none` models a raised parse error), and whether
`to_file` succeeds on it when attempted (schema compatibility with the
dataset being built). -/
structure GmlEntry where
  name : String
  read : Option Gdf
  writeOk : Bool

/-- Collection actually written for a parsed file (core.py lines 154-155):
reproject exactly when the collection's reference system differs from the
target. -/
def writtenGdf (target : String) (g : Gdf) : Gdf :=
  if g.crs ≠ target then g.to_crs target else g

/-- Loop of `_amalgamate_gmls` (core.py lines 149-160).  A file whose parse
raised is skipped; an empty collection is skipped as valid; a write in mode
"w" (first successful write) creates the dataset, a write in mode "a"
appends; a failed write leaves the dataset and the `is_first` flag
unchanged. -/
def amalgamate_go (target : String) :
    List GmlEntry → Bool → Option (List Feature) → Option (List Feature)
  | [], _, out => out
  | f :: fs, isFirst, out =>
      match f.read with
      | none => amalgamate_go target fs isFirst out
      | some g =>
          if g.feats.isEmpty then amalgamate_go target fs isFirst out
          else
            if f.writeOk then
              amalgamate_go target fs false
                (some ((if isFirst then [] else out.getD []) ++ gdfFeatures (writtenGdf target g)))
            else amalgamate_go target fs isFirst out

/-- Model of `_amalgamate_gmls` (core.py lines 137-160): with no extracted
files the method returns at line 141 and the pre-existing output is left
untouched; otherwise the pre-existing output is deleted (lines 146-147) and
the files are folded into a fresh dataset. -/
def _amalgamate_gmls (target : String) (files : List GmlEntry)
    (preOutput : Option (List Feature)) : Option (List Feature) :=
  if files.isEmpty then preOutput
  else amalgamate_go target files true none

/-! ## Pipeline Orchestrator (`__init__` and `run`, core.py lines 15-36 and 162-181) -/

/-- External collaborators of one run: the configured source URL, the fetch
of the index page, the per-URL archive fetch, the zipfile reader, the GML
parser and the per-file write outcome. -/
structure Env where
  base : String
  page : PageResult
  net : String → NetResult
  zipRead : List Nat → Option (List (String × List Nat))
  readGml : List Nat → Option Gdf
  writeOk : String → Bool

/-- Directory setup in `__init__` (core.py lines 33-36): the cache directory
is created if missing (its contents are kept), the scratch extraction
directory is removed if present and recreated empty. -/
def initDirs (s : RunState) : RunState := { s with extractDir := some [] }

/-- Consolidation stage as invoked by `run`: list the ".gml" files of the
scratch directory and fold them into the output dataset. -/
def amalgamateStage (env : Env) (s : RunState) : RunState :=
  let gmls := (s.extractDir.getD []).filter (fun e => pyEndsWith e.1 ".gml")
  let entries := gmls.map (fun e => GmlEntry.mk e.1 (env.readGml e.2) (env.writeOk e.1))
  { s with output := _amalgamate_gmls target_crs entries s.output }

/-- Model of `run` (core.py lines 162-181): discover links; when none are
found return at line 169 — before the scratch-directory removal at line 180;
otherwise download, extract, consolidate, and remove the scratch
directory. -/
def run (env : Env) (s : RunState) : RunState :=
  let links := _get_links env.base env.page
  if links.isEmpty then s
  else
    let s1 := (run_downloads env.net s links).2
    let s2 := _unzip_all env.zipRead s1
    let s3 := amalgamateStage env s2
    { s3 with extractDir := none }

/-- One full pipeline run as launched by `main`: construct the instance
(directory setup) and call `run`. -/
def pipeline (env : Env) (s : RunState) : RunState := run env (initDirs s)

/-! ## Derived notions used by the verification -/

/-- Features of the output dataset (empty when no dataset file exists). -/
def outFeats (o : Option (List Feature)) : List Feature := o.getD []

/-- Does a file parse to a non-empty collection?  Mirrors the two skip
conditions of the Consolidator loop (parse error at line 152, empty check at
line 153). -/
def goodB (f : GmlEntry) : Bool :=
  match f.read with
  | some g => !g.feats.isEmpty
  | none => false

/-- Does the Consolidator actually write this file: it parses, is non-empty,
and its write succeeds. -/
def writesB (f : GmlEntry) : Bool := f.writeOk && goodB f

/-- Features the Consolidator writes for a parsed file (empty for a parse
error). -/
def writtenFeats (target : String) (f : GmlEntry) : List Feature :=
  match f.read with
  | some g => gdfFeatures (writtenGdf target g)
  | none => []

/-- Number of features a file parses to. -/
def fileCount (f : GmlEntry) : Nat :=
  match f.read with
  | some g => g.feats.length
  | none => 0

/-! ## Concrete fixtures used for counterexamples and witnesses -/

/-- Network oracle on which every request raises. -/
def netFail : String → NetResult := fun _ => NetResult.fetchError

/-- Fresh state: empty cache, no scratch directory, no output dataset. -/
def emptyState : RunState := ⟨ [], none, none, []⟩

/-- State whose cache already holds a non-empty file "a.zip". -/
def cachedState : RunState := ⟨ [ ( "a.zip", [7]) ], none, none, []⟩

/-- State with a pre-existing output dataset from an earlier run. -/
def staleState : RunState := ⟨ [], none, some [⟨0, "EPSG:4326"⟩], []⟩

/-- Environment whose index page is served (status 200) but holds no
anchors, so discovery returns no links. -/
def envNoLinks : Env :=
  ⟨ "http://ex.com/", PageResult.ok 200 [], netFail, fun _ => none, fun _ => none, fun _ => false⟩

/-- Environment whose index page holds one matching anchor. -/
def envOneLink : Env :=
  ⟨ "http://ex.com/", PageResult.ok 200 [⟨ "a.zip", "Land GML"⟩], netFail,
    fun _ => none, fun _ => none, fun _ => false⟩

/-- Non-empty extracted file in a foreign reference system, write succeeds. -/
def entryA : GmlEntry := ⟨ "t1_a.gml", some ⟨ "EPSG:4326", [1, 2]⟩, true⟩

/-- Non-empty extracted file already in the target system, write succeeds. -/
def entryB : GmlEntry := ⟨ "t2_b.gml", some ⟨ "EPSG:27700", [3]⟩, true⟩

/-- Non-empty extracted file whose write raises. -/
def entryBad : GmlEntry := ⟨ "t3_c.gml", some ⟨ "EPSG:4326", [4]⟩, false⟩

/-! ## Helper lemmas: strings and `splitext` -/

theorem strOf_data (s : String) : strOf s.data = s := by
  cases s
  rfl

theorem string_ext {s t : String} (h : s.data = t.data) : s = t := by
  cases s
  cases t
  exact congrArg String.mk h

theorem append_right_ne {s1 s2 : String} (t : String) (h : s1 ≠ s2) : s1 ++ t ≠ s2 ++ t := by
  intro he
  apply h
  apply string_ext
  have hd : s1.data ++ t.data = s2.data ++ t.data := by
    rw [← String.data_append, ← String.data_append, he]
  exact List.append_cancel_right hd

theorem lastDot_append_dotzip : ∀ l : List Char,
    lastDot (l ++ ('.' :: [ 'z', 'i', 'p' ])) = some l.length := by
  intro l
  induction l with
  | nil => decide
  | cons c rest ih => simp [lastDot, ih]

theorem splitextStem_append_zip (s : String) (h : ∃ c ∈ s.data, c ≠ '.') :
    splitextStem (s ++ ".zip") = s := by
  have hdata : (s ++ ".zip").data = s.data ++ ('.' :: [ 'z', 'i', 'p' ]) := by
    rw [String.data_append]
  have hall : (s.data.all (fun c => c == '.')) = false := by
    rcases h with ⟨c, hc, hne⟩
    apply Bool.eq_false_iff.mpr
    intro hal
    exact hne (eq_of_beq (List.all_eq_true.mp hal c hc))
  unfold splitextStem
  rw [hdata, lastDot_append_dotzip s.data]
  simp [List.take_left, hall, strOf_data]

/-! ## Helper lemmas: cache lookups and the download report -/

theorem lookup_removeFile (name : String) :
    ∀ dir : List (String × List Nat), List.lookup name (removeFile name dir) = none := by
  intro dir
  induction dir with
  | nil => rfl
  | cons e rest ih =>
      obtain ⟨k, v⟩ := e
      by_cases he : k = name
      · simpa [removeFile, List.filter_cons, he] using ih
      · have hbe : (name == k) = false := beq_eq_false_iff_ne.mpr (Ne.symm he)
        simpa [removeFile, List.filter_cons, he, List.lookup, hbe] using ih

theorem not_mem_fst_of_lookup_none {name : String} :
    ∀ {dir : List (String × List Nat)}, List.lookup name dir = none →
      name ∉ dir.map Prod.fst := by
  intro dir
  induction dir with
  | nil => intro _ h; cases h
  | cons e rest ih =>
      obtain ⟨k, v⟩ := e
      intro hl hm
      by_cases he : name = k
      · have hbe : (name == k) = true := beq_iff_eq.mpr he
        simp [List.lookup, hbe] at hl
      · have hbe : (name == k) = false := beq_eq_false_iff_ne.mpr he
        rcases List.mem_cons.mp hm with h | h
        · exact he h
        · refine ih ?_ h
          simpa [List.lookup, hbe] using hl

theorem not_mem_fst_filter {name : String} {p : String × List Nat → Bool}
    {dir : List (String × List Nat)} (h : name ∉ dir.map Prod.fst) :
    name ∉ (dir.filter p).map Prod.fst := by
  intro hmem
  apply h
  rcases List.mem_map.mp hmem with ⟨e, he, rfl⟩
  exact List.mem_map.mpr ⟨e, (List.mem_filter.mp he).1, rfl⟩

theorem run_downloads_report (net : String → NetResult) :
    ∀ (links : List String) (s : RunState),
      ((run_downloads net s links).1.map Prod.fst) = links := by
  intro links
  induction links with
  | nil => intro s; rfl
  | cons url rest ih => intro s; simp [run_downloads, ih]

/-! ## Helper lemmas: sorted deduplicated lists -/

theorem mem_insertSorted (x : String) :
    ∀ (l : List String) (y : String), y ∈ insertSorted x l ↔ y = x ∨ y ∈ l := by
  intro l
  induction l with
  | nil => intro y; simp [insertSorted]
  | cons a t ih =>
      intro y
      unfold insertSorted
      by_cases hxa : x = a
      · subst hxa
        simp [List.mem_cons]
      · rw [if_neg hxa]
        by_cases hlt : x < a
        · rw [if_pos hlt]
          simp [List.mem_cons]
        · rw [if_neg hlt]
          simp [List.mem_cons, ih]
          tauto

theorem pairwise_insertSorted (x : String) :
    ∀ l : List String, List.Pairwise (· < ·) l →
      List.Pairwise (· < ·) (insertSorted x l) := by
  intro l
  induction l with
  | nil => intro _; simp [insertSorted]
  | cons a t ih =>
      intro h
      rcases List.pairwise_cons.mp h with ⟨ha, ht⟩
      unfold insertSorted
      by_cases hxa : x = a
      · rw [if_pos hxa]
        exact h
      · rw [if_neg hxa]
        by_cases hlt : x < a
        · rw [if_pos hlt]
          refine List.pairwise_cons.mpr ⟨?_, h⟩
          intro b hb
          rcases List.mem_cons.mp hb with rfl | hbt
          · exact hlt
          · exact lt_trans hlt (ha b hbt)
        · rw [if_neg hlt]
          have hax : a < x := by
            rcases lt_trichotomy x a with h1 | h1 | h1
            · exact absurd h1 hlt
            · exact absurd h1 hxa
            · exact h1
          refine List.pairwise_cons.mpr ⟨?_, ih ht⟩
          intro b hb
          rcases (mem_insertSorted x t b).mp hb with rfl | hbt
          · exact hax
          · exact ha b hbt

theorem sortDedup_cons (a : String) (t : List String) :
    sortDedup (a :: t) = insertSorted a (sortDedup t) := rfl

theorem mem_sortDedup : ∀ (l : List String) (y : String), y ∈ sortDedup l ↔ y ∈ l := by
  intro l
  induction l with
  | nil => intro y; simp [sortDedup]
  | cons a t ih =>
      intro y
      rw [sortDedup_cons, mem_insertSorted, ih, List.mem_cons]

theorem pairwise_sortDedup : ∀ l : List String, List.Pairwise (· < ·) (sortDedup l) := by
  intro l
  induction l with
  | nil => simp [sortDedup]
  | cons a t ih =>
      rw [sortDedup_cons]
      exact pairwise_insertSorted a (sortDedup t) ih

/-! ## Helper lemmas: the Consolidator loop -/

theorem go_skip (target : String) (f : GmlEntry) (fs : List GmlEntry) (b : Bool)
    (out : Option (List Feature)) (h : writesB f = false) :
    amalgamate_go target (f :: fs) b out = amalgamate_go target fs b out := by
  rcases hr : f.read with _ | g
  · simp [amalgamate_go, hr]
  · by_cases hemp : g.feats.isEmpty
    · simp [amalgamate_go, hr, hemp]
    · have hwk : f.writeOk = false := by
        simpa [writesB, goodB, hr, hemp] using h
      simp [amalgamate_go, hr, hemp, hwk]

theorem go_write (target : String) (f : GmlEntry) (fs : List GmlEntry) (b : Bool)
    (out : Option (List Feature)) (g : Gdf) (hr : f.read = some g)
    (hemp : g.feats.isEmpty = false) (hwk : f.writeOk = true) :
    amalgamate_go target (f :: fs) b out =
      amalgamate_go target fs false
        (some ((if b then [] else out.getD []) ++ gdfFeatures (writtenGdf target g))) := by
  simp [amalgamate_go, hr, hemp, hwk]

theorem writesB_true_elim {f : GmlEntry} (h : writesB f = true) :
    ∃ g, f.read = some g ∧ g.feats.isEmpty = false ∧ f.writeOk = true := by
  rcases hr : f.read with _ | g
  · simp [writesB, goodB, hr] at h
  · refine ⟨g, rfl, ?_, ?_⟩
    · have := h
      simp [writesB, goodB, hr] at this
      exact Bool.eq_false_iff.mpr (fun hx => this.2 (List.isEmpty_iff.mp hx))
    · have := h
      simp [writesB, goodB, hr] at this
      exact this.1

theorem amalgamate_go_spec (target : String) :
    ∀ (files : List GmlEntry) (isFirst : Bool) (out : Option (List Feature)),
    amalgamate_go target files isFirst out =
      if (files.filter writesB).isEmpty then out
      else
        some ((if isFirst then [] else out.getD []) ++
          ((files.filter writesB).map (writtenFeats target)).flatten) := by
  intro files
  induction files with
  | nil => intro b out; rfl
  | cons f fs ih =>
      intro b out
      by_cases hw : writesB f
      · rcases writesB_true_elim hw with ⟨g, hr, hemp, hwk⟩
        rw [go_write target f fs b out g hr hemp hwk, ih]
        have hwf : writtenFeats target f = gdfFeatures (writtenGdf target g) := by
          simp [writtenFeats, hr]
        by_cases hfe : (fs.filter writesB).isEmpty
        · have hnil : fs.filter writesB = [] := List.isEmpty_iff.mp hfe
          simp [List.filter_cons, hw, hfe, hnil, hwf]
        · have hne : ((f :: fs).filter writesB).isEmpty = false := by
            simp [List.filter_cons, hw]
          simp [List.filter_cons, hw, hfe, hne, hwf, List.append_assoc]
      · have hwf : writesB f = false := by simpa using hw
        rw [go_skip target f fs b out hwf, ih]
        simp [List.filter_cons, hwf]

theorem amalgamate_out_characterisation (target : String) (files : List GmlEntry)
    (preOut : Option (List Feature)) (h : files ≠ []) :
    outFeats (_amalgamate_gmls target files preOut) =
      ((files.filter writesB).map (writtenFeats target)).flatten := by
  have hfe : files.isEmpty = false := by simp [List.isEmpty_iff, h]
  unfold _amalgamate_gmls
  rw [hfe]
  simp only [Bool.false_eq_true, if_false, amalgamate_go_spec]
  by_cases hem : (files.filter writesB).isEmpty
  · have hnil : files.filter writesB = [] := List.isEmpty_iff.mp hem
    simp [hem, outFeats, hnil]
  · simp [hem, outFeats]

theorem length_writtenFeats (target : String) (f : GmlEntry) :
    (writtenFeats target f).length = fileCount f := by
  rcases hr : f.read with _ | g
  · simp [writtenFeats, fileCount, hr]
  · by_cases hc : g.crs = target <;>
      simp [writtenFeats, fileCount, hr, gdfFeatures, writtenGdf, Gdf.to_crs, hc]

theorem sum_written_lengths (target : String) :
    ∀ files : List GmlEntry,
      ((files.map (writtenFeats target)).map List.length).sum = (files.map fileCount).sum := by
  intro files
  induction files with
  | nil => rfl
  | cons f fs ih =>
      simp only [List.map_cons, List.sum_cons, length_writtenFeats]
      rw [ih]

theorem crs_writtenGdf (target : String) (g : Gdf) : (writtenGdf target g).crs = target := by
  by_cases hc : g.crs = target
  · simp [writtenGdf, hc]
  · simp [writtenGdf, hc, Gdf.to_crs]

/-! ## Claim theorems -/

/-- C1: after the Consolidator runs, the output dataset holds exactly the
features of the files that parse to a non-empty collection and whose write
succeeds; when all N non-empty files succeed the feature count is the sum of
the per-file counts; when exactly one file's write raises, the output still
holds all features of the other N−1 files. -/
theorem C1_consolidation_exact :
    ∀ (target : String) (files : List GmlEntry) (preOut : Option (List Feature)),
    files ≠ [] →
    (outFeats (_amalgamate_gmls target files preOut) =
        ((files.filter writesB).map (writtenFeats target)).flatten) ∧
    ((∀ f ∈ files, goodB f = true) → (∀ f ∈ files, f.writeOk = true) →
      (outFeats (_amalgamate_gmls target files preOut)).length =
        (files.map fileCount).sum) ∧
    (∀ (before : List GmlEntry) (bad : GmlEntry) (post : List GmlEntry),
      files = before ++ bad :: post → bad.writeOk = false →
      (∀ f ∈ before ++ post, goodB f = true ∧ f.writeOk = true) →
      outFeats (_amalgamate_gmls target files preOut) =
        ((before ++ post).map (writtenFeats target)).flatten) := by
  intro target files preOut hne
  refine ⟨amalgamate_out_characterisation target files preOut hne, ?_, ?_⟩
  · intro hgood hwrite
    rw [amalgamate_out_characterisation target files preOut hne]
    have hself : files.filter writesB = files := by
      apply List.filter_eq_self.mpr
      intro f hf
      simp [writesB, hwrite f hf, hgood f hf]
    rw [hself, List.length_flatten, sum_written_lengths]
  · intro before bad post hsplit hbad hrest
    rw [amalgamate_out_characterisation target files preOut hne, hsplit]
    have hbefore : before.filter writesB = before := by
      apply List.filter_eq_self.mpr
      intro f hf
      have h := hrest f (List.mem_append_left post hf)
      simp [writesB, h.1, h.2]
    have hpost : post.filter writesB = post := by
      apply List.filter_eq_self.mpr
      intro f hf
      have h := hrest f (List.mem_append_right before hf)
      simp [writesB, h.1, h.2]
    have hbadw : writesB bad = false := by simp [writesB, hbad]
    rw [List.filter_append, List.filter_cons, hbadw]
    simp [hbefore, hpost]

/-- C1 witness: evaluating the theorem on two concrete all-good files and on
a three-file list whose middle write raises. -/
theorem C1_consolidation_exact_witness :
    (outFeats (_amalgamate_gmls target_crs [entryA, entryB] none)).length =
      ([entryA, entryB].map fileCount).sum ∧
    outFeats (_amalgamate_gmls target_crs [entryA, entryBad, entryB] none) =
      (([entryA] ++ [entryB]).map (writtenFeats target_crs)).flatten := by
  constructor
  · exact (C1_consolidation_exact target_crs [entryA, entryB] none
      (List.cons_ne_nil _ _)).2.1 (by decide) (by decide)
  · exact (C1_consolidation_exact target_crs [entryA, entryBad, entryB] none
      (List.cons_ne_nil _ _)).2.2 [entryA] entryBad [entryB] rfl (by decide) (by decide)

/-- C3: every feature the Consolidator writes to the output dataset carries
the fixed target reference system EPSG:27700, and a collection already in
the target system is written unchanged (no reprojection). -/
theorem C3_reprojection_to_target :
    ∀ (files : List GmlEntry) (preOut : Option (List Feature)),
    files ≠ [] →
    (∀ feat ∈ outFeats (_amalgamate_gmls target_crs files preOut),
        feat.crs = target_crs) ∧
    (∀ g : Gdf, g.crs = target_crs → writtenGdf target_crs g = g) := by
  intro files preOut hne
  constructor
  · intro feat hf
    rw [amalgamate_out_characterisation target_crs files preOut hne] at hf
    rcases List.mem_flatten.mp hf with ⟨l, hl, hfl⟩
    rcases List.mem_map.mp hl with ⟨f, _, rfl⟩
    rcases hr : f.read with _ | g
    · simp [writtenFeats, hr] at hfl
    · rw [writtenFeats] at hfl
      simp only [hr] at hfl
      rcases List.mem_map.mp hfl with ⟨p, _, rfl⟩
      exact crs_writtenGdf target_crs g
  · intro g hg
    simp [writtenGdf, hg]

/-- C3 witness: a concrete feature of the output built from `entryA`
(source system EPSG:4326) carries the target system. -/
theorem C3_reprojection_to_target_witness :
    Feature.crs ⟨1, "EPSG:27700"⟩ = target_crs :=
  (C3_reprojection_to_target [entryA] none (List.cons_ne_nil _ _)).1
    ⟨1, "EPSG:27700"⟩ (by decide)

/-- C2: when the cache already holds a non-empty file under the link's
URL-path basename, the Fetcher performs no network request and reports the
link skipped with the state unchanged; when the file is missing or zero
bytes, a network request for the link is made and the outcome is not
"skipped". -/
theorem C2_cache_idempotence :
    ∀ (net : String → NetResult) (s : RunState) (url : String),
    (∀ b, List.lookup (urlFilename url) s.cache = some b → 0 < b.length →
        _download_file net s url = (DlOutcome.skipped, s)) ∧
    ((List.lookup (urlFilename url) s.cache = none ∨
        List.lookup (urlFilename url) s.cache = some []) →
      (_download_file net s url).2.netCalls = s.netCalls ++ [url] ∧
        (_download_file net s url).1 ≠ DlOutcome.skipped) := by
  intro net s url
  have hatt : ∀ fn, (attemptDownload net s url fn).2.netCalls = s.netCalls ++ [url] ∧
      (attemptDownload net s url fn).1 ≠ DlOutcome.skipped := by
    intro fn
    unfold attemptDownload
    cases net url <;> simp
  constructor
  · intro b hb hlen
    simp only [_download_file, hb]
    rw [if_pos hlen]
  · intro h
    rcases h with h | h
    · simp only [_download_file, h]
      exact hatt _
    · simp only [_download_file, h, List.length_nil, lt_irrefl, if_false]
      exact hatt _

/-- C2 witness: with "a.zip" cached non-empty the fetch of
http://x/a.zip is skipped without touching the state; with an empty cache
the same link is requested over the network. -/
theorem C2_cache_idempotence_witness :
    _download_file netFail cachedState "http://x/a.zip" = (DlOutcome.skipped, cachedState) ∧
    (_download_file netFail emptyState "http://x/a.zip").2.netCalls = [ "http://x/a.zip" ] ∧
    (_download_file netFail emptyState "http://x/a.zip").1 ≠ DlOutcome.skipped := by
  refine ⟨?_, ?_, ?_⟩
  · exact (C2_cache_idempotence netFail cachedState "http://x/a.zip").1 [7]
      (by decide) (by decide)
  · exact ((C2_cache_idempotence netFail emptyState "http://x/a.zip").2
      (Or.inl (by decide))).1
  · exact ((C2_cache_idempotence netFail emptyState "http://x/a.zip").2
      (Or.inl (by decide))).2

/-- C6: when a download for a link raises and the link's file was missing or
zero bytes beforehand, the outcome is "failed", the partially written file
is deleted (no lookup succeeds for it afterwards), the link contributes no
archive to the extraction candidates, and every sibling link of the batch is
still processed and reported exactly once. -/
theorem C6_failure_isolation :
    ∀ (net : String → NetResult) (s : RunState) (url : String),
    ((List.lookup (urlFilename url) s.cache = none ∨
        List.lookup (urlFilename url) s.cache = some []) →
      net url = NetResult.fetchError →
        (_download_file net s url).1 = DlOutcome.failed ∧
        List.lookup (urlFilename url) (_download_file net s url).2.cache = none ∧
        urlFilename url ∉
          (((_download_file net s url).2.cache.filter
              (fun e => pyEndsWith e.1 ".zip")).map Prod.fst)) ∧
    (∀ links : List String, ((run_downloads net s links).1.map Prod.fst) = links) := by
  intro net s url
  constructor
  · intro hc hnet
    have hred : _download_file net s url = attemptDownload net s url (urlFilename url) := by
      rcases hc with h | h
      · simp only [_download_file, h]
      · simp only [_download_file, h, List.length_nil, lt_irrefl, if_false]
    rw [hred]
    unfold attemptDownload
    rw [hnet]
    refine ⟨rfl, ?_, ?_⟩
    · exact lookup_removeFile (urlFilename url) s.cache
    · exact not_mem_fst_filter
        (not_mem_fst_of_lookup_none (lookup_removeFile (urlFilename url) s.cache))
  · intro links
    exact run_downloads_report net links s

/-- C6 witness: a failing fetch of http://x/a.zip against an empty cache
reports "failed" and leaves no cache entry named "a.zip"; a two-link batch
with the failing network still reports both links. -/
theorem C6_failure_isolation_witness :
    (_download_file netFail emptyState "http://x/a.zip").1 = DlOutcome.failed ∧
    List.lookup "a.zip" (_download_file netFail emptyState "http://x/a.zip").2.cache = none ∧
    ((run_downloads netFail emptyState
        [ "http://x/a.zip", "http://x/b.zip" ]).1.map Prod.fst) =
      [ "http://x/a.zip", "http://x/b.zip" ] := by
  have h := (C6_failure_isolation netFail emptyState "http://x/a.zip").1
    (Or.inl (by decide)) rfl
  exact ⟨h.1, h.2.1,
    (C6_failure_isolation netFail emptyState "http://x/a.zip").2
      [ "http://x/a.zip", "http://x/b.zip" ]⟩

/-- C9: two members of one archive with the same basename at different
internal paths map to the same output filename, so the later member
overwrites the earlier one: the archive t.zip with members a/parcels.gml
and b/parcels.gml extracts to the single file t_parcels.gml holding the
second member's bytes. -/
theorem C9_same_basename_overwrite :
    (∀ zipName m1 m2 : String, basenameStr m1 = basenameStr m2 →
        uniqueGmlName zipName m1 = uniqueGmlName zipName m2) ∧
    extractArchive "t.zip" [ ( "a/parcels.gml", [10]), ( "b/parcels.gml", [11]) ] [] =
      [ ( "t_parcels.gml", [11]) ] := by
  constructor
  · intro zipName m1 m2 h
    unfold uniqueGmlName
    rw [h]
  · decide

/-- C9 witness: the two concrete member paths of the scenario map to the
same output filename. -/
theorem C9_same_basename_overwrite_witness :
    uniqueGmlName "t.zip" "a/parcels.gml" = uniqueGmlName "t.zip" "b/parcels.gml" :=
  C9_same_basename_overwrite.1 "t.zip" "a/parcels.gml" "b/parcels.gml" (by decide)

/-- C10: discovery never consults the HTTP status code — any two responses
with the same body yield the same links — and a 404 page whose body holds a
matching anchor yields that link, while the raised-error failure path yields
the empty list. -/
theorem C10_status_code_ignored :
    (∀ (base : String) (st1 st2 : Nat) (anchors : List Anchor),
        _get_links base (PageResult.ok st1 anchors) =
          _get_links base (PageResult.ok st2 anchors)) ∧
    _get_links "http://ex.com/" (PageResult.ok 404 [⟨ "a.zip", "Land GML"⟩]) =
      [ "http://ex.com/a.zip" ] ∧
    _get_links "http://ex.com/" PageResult.fetchError = [] := by
  exact ⟨fun _ _ _ _ => rfl, by decide, rfl⟩

/-- C4 counterexample: the code filters on the raw href string, not on its
URL path: the anchor with href a.php?file=b.zip (whose path a.php does not
end in .zip) and matching text is returned by discovery, refuting "keeping
an href exactly when its path ends with the .zip archive extension". -/
theorem C4_path_filter_counterexample :
    _get_links "http://ex.com/" (PageResult.ok 200 [⟨ "a.php?file=b.zip", "land data"⟩]) =
      [ "http://ex.com/a.php?file=b.zip" ] ∧
    pyEndsWith (urlPath "a.php?file=b.zip") ".zip" = false := by decide

/-- C4 (amended): discovery returns a strictly sorted (hence deduplicated)
list holding exactly the resolutions of the hrefs that pass `keepLink`,
i.e. those where the href string itself ends in ".zip" and the normalised
link text contains ".gml" or "land"; in the two-anchor scenario only
a.zip's absolute URL is returned and b.txt is excluded. -/
theorem C4_discovery_filter_sorted :
    ∀ (base : String) (st : Nat) (anchors : List Anchor) (u : String),
    (u ∈ _get_links base (PageResult.ok st anchors) ↔
      ∃ a ∈ anchors, keepLink a = true ∧ u = urljoin base a.href) ∧
    List.Pairwise (· < ·) (_get_links base (PageResult.ok st anchors)) ∧
    _get_links "http://ex.com/"
        (PageResult.ok 200 [⟨ "a.zip", "Land GML"⟩, ⟨ "b.txt", "Land GML"⟩]) =
      [ "http://ex.com/a.zip" ] := by
  intro base st anchors u
  refine ⟨?_, pairwise_sortDedup _, by decide⟩
  show u ∈ sortDedup ((anchors.filter keepLink).map (fun a => urljoin base a.href)) ↔ _
  rw [mem_sortDedup]
  constructor
  · intro hm
    rcases List.mem_map.mp hm with ⟨a, ha, rfl⟩
    rcases List.mem_filter.mp ha with ⟨ha1, ha2⟩
    exact ⟨a, ha1, ha2, rfl⟩
  · rintro ⟨a, ha, hk, rfl⟩
    exact List.mem_map.mpr ⟨a, List.mem_filter.mpr ⟨ha, hk⟩, rfl⟩

/-- C5 counterexample: the renaming scheme is not invertible back to the
pair (archiveName, memberName): the two distinct pairs (a_b.zip, c.gml) and
(a.zip, b_c.gml) map to the same output filename a_b_c.gml. -/
theorem C5_not_invertible :
    uniqueGmlName "a_b.zip" "c.gml" = uniqueGmlName "a.zip" "b_c.gml" ∧
    ( ( "a_b.zip", "c.gml") : String × String) ≠ ( "a.zip", "b_c.gml") := by decide

/-- C5 (amended): for two distinct archives whose filenames are a stem
(containing at least one non-dot character) followed by ".zip", members with
the same basename are mapped to two distinct output filenames, each
deterministically computed from the pair; invertibility does not hold in
general. -/
theorem C5_distinct_archive_names :
    ∀ (n1 n2 m1 m2 s1 s2 : String),
    n1 = s1 ++ ".zip" → n2 = s2 ++ ".zip" → n1 ≠ n2 →
    (∃ c ∈ s1.data, c ≠ '.') → (∃ c ∈ s2.data, c ≠ '.') →
    basenameStr m1 = basenameStr m2 →
    uniqueGmlName n1 m1 ≠ uniqueGmlName n2 m2 := by
  intro n1 n2 m1 m2 s1 s2 h1 h2 hne hd1 hd2 hb
  subst h1
  subst h2
  have hs : s1 ≠ s2 := by
    intro he
    exact hne (by rw [he])
  unfold uniqueGmlName
  rw [splitextStem_append_zip s1 hd1, splitextStem_append_zip s2 hd2, hb,
    String.append_assoc, String.append_assoc]
  exact append_right_ne ( "_" ++ basenameStr m2) hs

/-- C5 witness: the archives tile1.zip and tile2.zip with the common member
same.gml receive distinct output filenames. -/
theorem C5_distinct_archive_names_witness :
    uniqueGmlName "tile1.zip" "same.gml" ≠ uniqueGmlName "tile2.zip" "same.gml" :=
  C5_distinct_archive_names "tile1.zip" "tile2.zip" "same.gml" "same.gml" "tile1" "tile2"
    (by decide) (by decide) (by decide) (by decide) (by decide) rfl

/-- C7 counterexample: a run whose discovery page holds no anchors ends
early and leaves a pre-existing output dataset untouched, refuting "in every
run, any pre-existing dataset at the output path is deleted ... regardless
of how discovery, fetching, or extraction turn out". -/
theorem C7_stale_output_survives :
    (pipeline envNoLinks staleState).output = some [⟨0, "EPSG:4326"⟩] ∧
    (pipeline envNoLinks staleState).output ≠ none := by
  refine ⟨rfl, ?_⟩
  intro h
  exact Option.noConfusion
    (show (some [(⟨0, "EPSG:4326"⟩ : Feature)] : Option (List Feature)) = none from h)

/-- C7 (amended): the pre-existing dataset is deleted when consolidation
begins, provided at least one extracted file exists — consolidating a
non-empty file list is independent of any pre-existing output — while
consolidating an empty file list returns early and leaves a pre-existing
dataset untouched. -/
theorem C7_clean_slate_when_files :
    ∀ (target : String) (files : List GmlEntry) (preOut : Option (List Feature)),
    (files ≠ [] →
      _amalgamate_gmls target files preOut = _amalgamate_gmls target files none) ∧
    _amalgamate_gmls target [] preOut = preOut := by
  intro target files preOut
  constructor
  · intro h
    have hfe : files.isEmpty = false := by simp [List.isEmpty_iff, h]
    unfold _amalgamate_gmls
    rw [hfe]
    simp only [Bool.false_eq_true, if_false]
  · rfl

/-- C7 amended witness: with one concrete file, a stale output does not
influence the consolidation result. -/
theorem C7_clean_slate_when_files_witness :
    _amalgamate_gmls target_crs [entryA] (some [⟨0, "EPSG:4326"⟩]) =
      _amalgamate_gmls target_crs [entryA] none :=
  (C7_clean_slate_when_files target_crs [entryA] (some [⟨0, "EPSG:4326"⟩])).1
    (List.cons_ne_nil _ _)

/-- C8 counterexample: when discovery returns an empty link list the run
returns before the scratch-directory removal, so the scratch directory
created at construction is still present after the run, refuting "leaving no
scratch artifacts behind — including when discovery returns an empty link
list". -/
theorem C8_scratch_survives_empty_run :
    (pipeline envNoLinks staleState).extractDir = some [] ∧
    (pipeline envNoLinks staleState).extractDir ≠ none := by
  refine ⟨rfl, ?_⟩
  intro h
  exact Option.noConfusion
    (show (some [] : Option (List (String × List Nat))) = none from h)

/-- C8 (amended): the scratch directory is purged and recreated empty at
construction, and removed at the end of every run whose discovery returns a
non-empty link list; a run with no links ends early and leaves the freshly
created empty scratch directory in place. -/
theorem C8_scratch_lifecycle :
    (∀ s : RunState, (initDirs s).extractDir = some []) ∧
    (∀ (env : Env) (s : RunState),
      _get_links env.base env.page ≠ [] → (run env s).extractDir = none) := by
  constructor
  · intro s
    rfl
  · intro env s h
    have hfe : (_get_links env.base env.page).isEmpty = false := by
      simp [List.isEmpty_iff, h]
    simp only [run, hfe, Bool.false_eq_true, if_false]

/-- C8 amended witness: construction recreates the scratch directory, and a
run over a page with one matching link removes it at completion. -/
theorem C8_scratch_lifecycle_witness :
    (initDirs staleState).extractDir = some [] ∧
    (run envOneLink staleState).extractDir = none :=
  ⟨C8_scratch_lifecycle.1 staleState,
    C8_scratch_lifecycle.2 envOneLink staleState (by decide)⟩

end openinspire
